import Mathlib

/-!
Shallow embedding of the ptmconvert repository (src/ptmconvert.cpp and
src/taf_ptm.h).  Both files contain the same PTM 1.2 loading pipeline
(ptm_read in ptmconvert.cpp, ptm_load in taf_ptm.h); the definitions below
embed that pipeline once.  Byte buffers are modelled as List Nat with byte
values below 256; C++ int arithmetic is modelled with Int using Int.tmod and
Int.tdiv for the truncating % and / operators, and reduction modulo 2 ^ 64
respectively 2 ^ 8 for the conversions to size_t and unsigned char.  The
external single channel image decoder (stb_image) is out of scope; decoded
planes enter the pipeline as explicit arguments.
-/

namespace Ptmconvert

/-- PTM format tags, from enum PTMFormat. -/
inductive PTMFormat
  | PTM_FORMAT_RGB
  | PTM_FORMAT_LUM
  | PTM_FORMAT_LRGB
  | PTM_FORMAT_JPEG_RGB
  | PTM_FORMAT_JPEG_LRGB
  | PTM_FORMAT_JPEGLS_RGB
  | PTM_FORMAT_JPEGLS_LRGB
  deriving DecidableEq

/-- Per plane transforms, from enum PTMTransform. -/
inductive PTMTransform
  | NOTHING
  | PLANE_INVERSION
  | MOTION_COMPENSATION
  deriving DecidableEq

/-- Error values, one constructor per throw site of ptm_read and ptm_dump
(in the source all are std::runtime_error values carrying these distinct
messages). -/
inductive PtmError
  | cantOpenFile
  | wrongVersion
  | unknownFormat (tag : String)
  | stbFailure (msg : String)
  | tooManyComponents
  | incompatibleSize
  | cantReadFormat
  | cantDumpFormat
  | cantWritePng
  deriving DecidableEq

/-- C++ conversion from int to size_t: reduction modulo 2 ^ 64. -/
def size_tOfInt (i : Int) : Nat := (i % (2 : Int) ^ 64).toNat

/-- is_lrgb from the source. -/
def is_lrgb (fmt : PTMFormat) : Bool :=
  fmt = .PTM_FORMAT_JPEG_LRGB || fmt = .PTM_FORMAT_LRGB ||
    fmt = .PTM_FORMAT_JPEGLS_LRGB

/-- is_compressed from the source. -/
def is_compressed (fmt : PTMFormat) : Bool :=
  fmt = .PTM_FORMAT_JPEG_RGB || fmt = .PTM_FORMAT_JPEG_LRGB ||
    fmt = .PTM_FORMAT_JPEGLS_RGB || fmt = .PTM_FORMAT_JPEGLS_LRGB

/-- get_epp from the source. -/
def get_epp (fmt : PTMFormat) : Nat :=
  if is_lrgb fmt then 9 else 18

/-- struct CompressionInfo from the source. -/
structure CompressionInfo where
  compressionParameter : Nat
  transforms : List PTMTransform
  motionVectors : List Int
  order : List Int
  referencePlanes : List Int
  compressedSize : List Nat
  sideInformation : List Nat

/-- A decoded plane: a single channel raster of width times height byte
samples. -/
abbrev Plane := List Nat

/-- The version and format token checks at the start of ptm_read.  The
argument is the whitespace separated token stream of the header; a failed
extraction on a stream with no further token leaves an empty string, which is
what getD with default "" yields. -/
def ptm_read_header (tokens : List String) : Except PtmError PTMFormat :=
  let version := tokens.getD 0 ""
  if version ≠ "PTM_1.2" then .error .wrongVersion
  else
    let format := tokens.getD 1 ""
    if format = "PTM_FORMAT_LRGB" then .ok .PTM_FORMAT_LRGB
    else if format = "PTM_FORMAT_JPEG_LRGB" then .ok .PTM_FORMAT_JPEG_LRGB
    else .error (.unknownFormat format)

/-- One execution of stream.read(&temp, 1) in the newline scan of ptm_read:
the state is the cursor position paired with the current value of temp.  At
end of stream the read fails and leaves both the cursor and temp unchanged. -/
def readStep (stream : List Nat) (s : Nat × Nat) : Nat × Nat :=
  match stream[s.1]? with
  | some b => (s.1 + 1, b)
  | none => s

/-- The newline scan loop of ptm_read
(do ... stream.read(&temp, 1) ... while (temp != 10)), indexed by a fuel
bound on the number of iterations; some p means the loop exited with the
cursor at p after reading a newline byte, none means the fuel ran out with
the loop still running. -/
def scanNewline (stream : List Nat) : Nat → Nat × Nat → Option Nat
  | 0, _ => none
  | fuel + 1, s =>
      let s2 := readStep stream s
      if s2.2 = 10 then some s2.1 else scanNewline stream fuel s2

/-- The per pixel prediction of the second pass of ptm_read:
iPlane[x] = (jpx + iPlane[x] - 128) % 255 where jpx is the reference sample,
inverted to 255 - jpx under PLANE_INVERSION.  The C++ % on int truncates
(Int.tmod) and the store into the unsigned char plane wraps modulo 256. -/
def predict (tr : PTMTransform) (jpx cur : Nat) : Nat :=
  let jpx2 : Int := if tr = .PLANE_INVERSION then 255 - (jpx : Int) else (jpx : Int)
  ((Int.tmod (jpx2 + (cur : Int) - 128) 255) % 256).toNat

/-- The prediction loop over all pixels of a plane (for x < numPixels,
iPlane[x] is overwritten using jPlane[x]; reads at index x happen before the
write at index x, so the element wise zipWith also covers the aliased case of
a plane predicting from itself). -/
def applyPrediction (tr : PTMTransform) (jPlane iPlane : Plane) : Plane :=
  List.zipWith (predict tr) jPlane iPlane

/-- One 5 byte side information record: 4 index bytes followed by the
replacement value, in the order the bytes occur in the payload. -/
structure SideRec where
  p3 : Nat
  p2 : Nat
  p1 : Nat
  p0 : Nat
  v : Nat
  deriving DecidableEq

/-- int index = p3 << 24 | p2 << 16 | p1 << 8 | p0, the big endian pixel
index of a record, with the resulting 32 bit pattern read as a signed int
(two complement). -/
def recIndex (r : SideRec) : Int :=
  let u : Nat := r.p3 <<< 24 ||| r.p2 <<< 16 ||| r.p1 <<< 8 ||| r.p0
  if u < 2 ^ 31 then (u : Int) else (u : Int) - 2 ^ 32

/-- The remapped write position of a record:
width = index % w, height = index / w, h2 = h - height - 1,
index2 = h2 * w + width (local names follow the source). -/
def targetIndex (w h : Nat) (r : SideRec) : Int :=
  let index := recIndex r
  let width := Int.tmod index (w : Int)
  let height := Int.tdiv index (w : Int)
  let h2 := (h : Int) - height - 1
  h2 * (w : Int) + width

/-- iPlane[index2] = v for one record.  A write outside the plane is
undefined behaviour in the C++ source; the model leaves the plane unchanged
there (List.set is the identity beyond the length, and a negative index2 is
guarded explicitly). -/
def patchOne (w h : Nat) (plane : Plane) (r : SideRec) : Plane :=
  let index2 := targetIndex w h r
  if 0 ≤ index2 then plane.set index2.toNat r.v else plane

/-- The side information while loop: consume 5 bytes per iteration while the
cursor is below the payload size.  A trailing fragment of fewer than 5 bytes
would be read out of bounds by the C++ source (undefined behaviour); the
model stops there. -/
def applySideInfo (w h : Nat) (plane : Plane) : List Nat → Plane
  | p3 :: p2 :: p1 :: p0 :: v :: rest =>
      applySideInfo w h (patchOne w h plane ⟨p3, p2, p1, p0, v⟩) rest
  | _ => plane

/-- Decomposition of a side information payload into its 5 byte records;
none when a nonempty fragment shorter than one record remains, which is
exactly the case in which the while loop of the source reads past the end of
the payload. -/
def parseSideInfo : List Nat → Option (List SideRec)
  | [] => some []
  | p3 :: p2 :: p1 :: p0 :: v :: rest =>
      (parseSideInfo rest).map (fun rs => ⟨p3, p2, p1, p0, v⟩ :: rs)
  | _ => none

/-- Assignment order[k] = pv on the std::map of ptm_read: overwrite the
binding of k when present, append a new binding otherwise. -/
def orderInsert (m : List (Nat × Nat)) (k pv : Nat) : List (Nat × Nat) :=
  if m.any (fun kv => kv.1 = k) then
    m.map (fun kv => if kv.1 = k then (k, pv) else kv)
  else m ++ [(k, pv)]

/-- The first pass insertions order[ptm.ci.order[p]] = p for
p = 0 .. epp - 1 (keys go through the int to size_t conversion). -/
def buildOrder (epp : Nat) (ord : List Int) : List (Nat × Nat) :=
  (List.range epp).foldl (fun m p => orderInsert m (size_tOfInt (ord.getD p 0)) p) []

/-- Lookup order[n] on the std::map: operator[] value initialises a missing
entry, so a key that was never inserted yields 0. -/
def orderLookup (m : List (Nat × Nat)) (n : Nat) : Nat :=
  match m.find? (fun kv => kv.1 = n) with
  | some kv => kv.2
  | none => 0

/-- The body of one iteration of the second pass of ptm_read for the storage
plane i: prediction from the reference plane when the reference index is not
the -1 sentinel (compared after int to size_t conversion, as in the source),
then the side information patch when the payload of plane i is nonempty. -/
def reconPlane (w h : Nat) (ci : CompressionInfo) (sideInfo : List (List Nat))
    (planes : List Plane) (i : Nat) : List Plane :=
  let j := size_tOfInt (ci.referencePlanes.getD i 0)
  let planes1 :=
    if j ≠ size_tOfInt (-1) then
      let jPlane := planes.getD j []
      let iPlane := planes.getD i []
      planes.set i (applyPrediction (ci.transforms.getD i .NOTHING) jPlane iPlane)
    else planes
  let side := sideInfo.getD i []
  if side.length > 0 then
    planes1.set i (applySideInfo w h (planes1.getD i []) side)
  else planes1

/-- Iteration n of the second pass: the storage plane processed at logical
position n is obtained from the order map. -/
def reconStep (w h : Nat) (ci : CompressionInfo) (sideInfo : List (List Nat))
    (ordMap : List (Nat × Nat)) (planes : List Plane) (n : Nat) : List Plane :=
  reconPlane w h ci sideInfo planes (orderLookup ordMap n)

/-- The complete second pass: for n = 0 .. epp - 1 process the plane at
logical position n. -/
def reconstruct (w h epp : Nat) (ci : CompressionInfo) (sideInfo : List (List Nat))
    (planes : List Plane) : List Plane :=
  (List.range epp).foldl (reconStep w h ci sideInfo (buildOrder epp ci.order)) planes

/-- The assembly loop of ptm_read for compressed LRGB.  The source loops over
all pixels index = x + y * w and writes coefficients[index * 6 + p] and
coefficients[numPixels * 6 + index * 3 + p] from planes[p][invin] with
invin = numPixels - index - 1; each output byte is written exactly once, so
the buffer is given here by position (k = index * 6 + p in the first block,
k = index * 3 + p in the second). -/
def assemble (w h : Nat) (planes : List Plane) : List Nat :=
  let numPixels := w * h
  ((List.range (numPixels * 6)).map fun k =>
      (planes.getD (k % 6) []).getD (numPixels - k / 6 - 1) 0)
  ++ ((List.range (numPixels * 3)).map fun k =>
      (planes.getD (6 + k % 3) []).getD (numPixels - k / 3 - 1) 0)

/-- The compressed LRGB branch of ptm_read after decoding: reconstruction of
the 9 storage planes followed by assembly into the coefficient buffer.  The
decoded planes and the raw side information payloads are the inputs that the
external stb decode stage and the payload reads deliver. -/
def ptm_read_jpeg (w h : Nat) (ci : CompressionInfo) (planes : List Plane)
    (sideInfo : List (List Nat)) : List Nat :=
  assemble w h (reconstruct w h (get_epp .PTM_FORMAT_JPEG_LRGB) ci sideInfo planes)

/-- The uncompressed LRGB branch of ptm_read: coefficients is resized to
w * h * epp zero bytes and stream.read copies the available payload bytes
over the front verbatim. -/
def readCoefficientsLRGB (w h : Nat) (payload : List Nat) : List Nat :=
  let size := w * h * get_epp .PTM_FORMAT_LRGB
  payload.take size ++ List.replicate (size - min size payload.length) 0

/-- The format dispatch of ptm_read after the newline scan: uncompressed
LRGB copies the payload verbatim, compressed LRGB runs the decode and
reconstruction pipeline, anything else throws. -/
def ptm_read_body (fmt : PTMFormat) (w h : Nat) (payload : List Nat)
    (ci : CompressionInfo) (planes : List Plane) (sideInfo : List (List Nat)) :
    Except PtmError (List Nat) :=
  if fmt = .PTM_FORMAT_LRGB then .ok (readCoefficientsLRGB w h payload)
  else if fmt = .PTM_FORMAT_JPEG_LRGB then .ok (ptm_read_jpeg w h ci planes sideInfo)
  else .error .cantReadFormat

/-- The source pixel feeding destination pixel (dx, dy) in ptm_dump.  The
source iterates over source pixels and flips the destination index
(vertically for LRGB, horizontally for JPEG LRGB); both flips are
involutions, so reading the loop backwards sources destination (dx, dy) from
this pixel. -/
def dumpSrcPixel (fmt : PTMFormat) (w h dx dy : Nat) : Nat :=
  if fmt = .PTM_FORMAT_LRGB then (h - 1 - dy) * w + dx
  else dy * w + (w - 1 - dx)

/-- ptm_dump without the PNG encoding: the three output images (coeffH,
coeffL, rgb), each w * h * 3 bytes, or the format error for formats other
than the two LRGB variants.  Each output byte at position k = d * 3 + c is
written exactly once by the source loop, from the stated coefficient buffer
offset of the source pixel. -/
def ptm_dump (fmt : PTMFormat) (w h : Nat) (coefficients : List Nat) :
    Except PtmError (List Nat × List Nat × List Nat) :=
  if fmt ≠ .PTM_FORMAT_LRGB ∧ fmt ≠ .PTM_FORMAT_JPEG_LRGB then .error .cantDumpFormat
  else
    let numPixels := w * h
    let srcP := fun (k : Nat) => dumpSrcPixel fmt w h (k / 3 % w) (k / 3 / w)
    .ok
      ((List.range (numPixels * 3)).map
          (fun k => coefficients.getD (srcP k * 6 + k % 3) 0),
       (List.range (numPixels * 3)).map
          (fun k => coefficients.getD (srcP k * 6 + k % 3 + 3) 0),
       (List.range (numPixels * 3)).map
          (fun k => coefficients.getD (numPixels * 6 + srcP k * 3 + k % 3) 0))

/-! Helper lemmas about list access. -/

lemma getD_set_self {α : Type} (l : List α) (i : Nat) (a d : α) (h : i < l.length) :
    (l.set i a).getD i d = a := by
  simp [List.getD_eq_getElem?_getD, List.getElem?_set_self, h]

lemma getD_set_ne {α : Type} (l : List α) (i j : Nat) (a d : α) (h : i ≠ j) :
    (l.set i a).getD j d = l.getD j d := by
  simp [List.getD_eq_getElem?_getD, List.getElem?_set_ne h]

lemma range_map_getD (n k : Nat) (f : Nat → Nat) (hk : k < n) :
    ((List.range n).map f).getD k 0 = f k := by
  have hl : k < ((List.range n).map f).length := by simpa using hk
  rw [List.getD_eq_getElem?_getD, List.getElem?_eq_getElem hl]
  simp

lemma getD_zipWith (f : Nat → Nat → Nat) (a b : List Nat) (x : Nat)
    (ha : x < a.length) (hb : x < b.length) :
    (List.zipWith f a b).getD x 0 = f (a.getD x 0) (b.getD x 0) := by
  have hz : x < (List.zipWith f a b).length := by
    rw [List.length_zipWith]; omega
  rw [List.getD_eq_getElem?_getD, List.getElem?_eq_getElem hz,
    List.getD_eq_getElem?_getD, List.getElem?_eq_getElem ha,
    List.getD_eq_getElem?_getD, List.getElem?_eq_getElem hb]
  simp [List.getElem_zipWith]

/-! Claim C1.  The spec asserts floor mod semantics for the prediction
formula, with (55 + 10 - 128) mod 255 = 192 in the concrete case.  The code
computes the C++ truncating remainder and then wraps the store into an
unsigned char modulo 256, which yields 193 for that case. -/

/-- Closed characterization of predict: for byte inputs, the result is the
floor mod by 255 of the intermediate t = ref + cur - 128 when t is
nonnegative, and t + 256 (the unsigned char wrap of the untouched negative
remainder) when t is negative. -/
lemma predict_eq (tr : PTMTransform) (jpx cur : Nat) (hj : jpx ≤ 255) (hc : cur ≤ 255) :
    predict tr jpx cur =
      (let ref : Int := if tr = .PLANE_INVERSION then 255 - (jpx : Int) else (jpx : Int)
       let t : Int := ref + (cur : Int) - 128
       (if 0 ≤ t then t % 255 else t + 256).toNat) := by
  have key : ∀ t : Int, -128 ≤ t → t ≤ 382 →
      ((Int.tmod t 255) % 256).toNat = (if 0 ≤ t then t % 255 else t + 256).toNat := by
    intro t h1 h2
    by_cases h0 : 0 ≤ t
    · rw [if_pos h0, Int.tmod_eq_emod h0 (by norm_num)]
      have ha : 0 ≤ t % 255 := Int.emod_nonneg t (by norm_num)
      have hb : t % 255 < 255 := Int.emod_lt_of_pos t (by norm_num)
      rw [Int.emod_eq_of_lt ha (by omega)]
    · rw [if_neg h0]
      have hnd : (-t).tdiv 255 = 0 := Int.tdiv_eq_zero_of_lt (by omega) (by omega)
      have hnd2 := Int.neg_tdiv (-t) 255
      rw [neg_neg] at hnd2
      have hdz : t.tdiv 255 = 0 := by omega
      have hm : t.tmod 255 = t := by rw [Int.tmod_def, hdz]; ring
      rw [hm]
      have h3 : t % 256 = (t + 256) % 256 := by
        simp
      rw [h3, Int.emod_eq_of_lt (by omega) (by omega)]
  exact key _ (by split <;> omega) (by split <;> omega)

/-- Claim C1, counterexample: in the concrete case of the spec (reference
sample 200 under PlaneInversion, current sample 10) the code computes 193,
not the floor mod value 192 = (55 + 10 - 128) mod 255 the claim requires. -/
theorem C1_counterexample :
    predict .PLANE_INVERSION 200 10 = 193 ∧
      predict .PLANE_INVERSION 200 10 ≠ ((55 + 10 - 128 : Int) % 255).toNat := by
  decide

/-- Claim C1, amended: for every compressed LRGB plane whose reference index
is not the -1 sentinel and every pixel x, reconstruction (here: the second
pass step that processes that plane, with no side information for it) sets
plane[i][x] to the truncating remainder (ref + plane[i][x] - 128) tmod 255
wrapped into an unsigned char, i.e. floor mod 255 of the intermediate when it
is nonnegative and intermediate + 256 when it is negative, where ref is the
(possibly inverted) reference sample. -/
theorem C1_prediction_amended (w h : Nat) (ci : CompressionInfo)
    (sideInfo : List (List Nat)) (ordMap : List (Nat × Nat)) (planes : List Plane)
    (n i j x : Nat)
    (hi : orderLookup ordMap n = i)
    (hil : i < planes.length)
    (hj : size_tOfInt (ci.referencePlanes.getD i 0) = j)
    (hsent : j ≠ size_tOfInt (-1))
    (hside : sideInfo.getD i [] = [])
    (hxj : x < (planes.getD j []).length)
    (hxi : x < (planes.getD i []).length)
    (hbj : (planes.getD j []).getD x 0 ≤ 255)
    (hbi : (planes.getD i []).getD x 0 ≤ 255) :
    ((reconStep w h ci sideInfo ordMap planes n).getD i []).getD x 0 =
      (let jpx : Int := (planes.getD j []).getD x 0
       let ref : Int :=
         if ci.transforms.getD i .NOTHING = .PLANE_INVERSION then 255 - jpx else jpx
       let t : Int := ref + ((planes.getD i []).getD x 0 : Int) - 128
       (if 0 ≤ t then t % 255 else t + 256).toNat) := by
  simp only [reconStep]
  rw [hi]
  simp only [reconPlane]
  rw [hj, if_pos hsent, hside]
  simp only [List.length_nil, gt_iff_lt, lt_self_iff_false, if_false]
  rw [getD_set_self _ _ _ _ hil]
  simp only [applyPrediction]
  rw [getD_zipWith _ _ _ _ hxj hxi]
  exact predict_eq _ _ _ hbj hbi

/-- Claim C1, witness for the amended theorem: a 1 by 1 image, plane 0
predicting from plane 1 under PlaneInversion with samples 10 and 200; the
reconstructed pixel is 193. -/
theorem C1_amended_witness :
    (orderLookup (buildOrder 2 [0, 1]) 0 = 0 ∧
      size_tOfInt ((⟨0, [.PLANE_INVERSION, .NOTHING], [], [0, 1], [1, -1], [], []⟩ :
        CompressionInfo).referencePlanes.getD 0 0) = 1 ∧
      (1 : Nat) ≠ size_tOfInt (-1)) ∧
    ((reconStep 1 1 ⟨0, [.PLANE_INVERSION, .NOTHING], [], [0, 1], [1, -1], [], []⟩
        [[], []] (buildOrder 2 [0, 1]) [[10], [200]] 0).getD 0 []).getD 0 0 = 193 :=
  ⟨by decide,
   C1_prediction_amended 1 1 ⟨0, [.PLANE_INVERSION, .NOTHING], [], [0, 1], [1, -1], [], []⟩
     [[], []] (buildOrder 2 [0, 1]) [[10], [200]] 0 0 1 0
     (by decide) (by decide) (by decide) (by decide) (by decide) (by decide)
     (by decide) (by decide) (by decide)⟩

/-! Claim C2.  The newline scan of ptm_read is the unbounded loop
do stream.read(&temp, 1) while (temp != 10): at end of stream the read
fails and leaves temp unchanged, so on a stream with no remaining newline
byte the loop never exits, for any iteration bound. -/

/-- Claim C2: for every stream whose bytes at or after the cursor contain no
newline and whose current temp value is not a newline, the scan loop of
ptm_read never exits, whatever fuel it is given; in particular it never
reports a FormatError on end of stream, contradicting the claim (the spec
marks this as the behaviour to fix, so the code, not the claim, is wrong). -/
theorem C2_scan_never_exits (stream : List Nat) :
    ∀ (fuel pos temp : Nat),
      (∀ k, pos ≤ k → k < stream.length → stream.getD k 0 ≠ 10) →
      temp ≠ 10 →
      scanNewline stream fuel (pos, temp) = none := by
  intro fuel
  induction fuel with
  | zero => intro pos temp _ _; rfl
  | succ f ih =>
      intro pos temp hnl ht
      show (let s2 := readStep stream (pos, temp);
            if s2.2 = 10 then some s2.1 else scanNewline stream f s2) = none
      unfold readStep
      cases hsg : stream[pos]? with
      | some b =>
          have hb : b ≠ 10 := by
            have hlt : pos < stream.length := by
              by_contra hge
              rw [List.getElem?_eq_none (by omega)] at hsg
              exact Option.noConfusion hsg
            have : stream.getD pos 0 = b := by
              rw [List.getD_eq_getElem?_getD, hsg]; rfl
            rw [← this]
            exact hnl pos le_rfl hlt
          simp only [hsg, if_neg hb]
          exact ih (pos + 1) b (fun k hk hk2 => hnl k (by omega) hk2) hb
      | none =>
          simp only [hsg, if_neg ht]
          exact ih pos temp hnl ht

/-- Claim C2, witness: the scan on an exhausted stream makes no progress for
a concrete fuel either. -/
theorem C2_witness :
    ((∀ k, 0 ≤ k → k < ([] : List Nat).length → ([] : List Nat).getD k 0 ≠ 10) ∧
      (0 : Nat) ≠ 10) ∧
    scanNewline [] 1000 (0, 0) = none :=
  ⟨⟨fun k _ hk => absurd hk (by simp), by decide⟩,
   C2_scan_never_exits [] 1000 0 0 (fun k _ hk => absurd hk (by simp)) (by decide)⟩

/-! Claim C6.  Version and format token validation. -/

/-- Claim C6: parsing fails with the wrong version error when the first
token is not exactly PTM_1.2; a recognized but unsupported tag such as
PTM_FORMAT_RGB fails with the distinct unknown format error; and the only
formats ever accepted are LRGB and JPEG LRGB. -/
theorem C6_header_validation :
    (∀ tokens : List String, tokens.getD 0 "" ≠ "PTM_1.2" →
      ptm_read_header tokens = .error .wrongVersion) ∧
    (∀ tokens : List String, tokens.getD 0 "" = "PTM_1.2" →
      tokens.getD 1 "" = "PTM_FORMAT_RGB" →
      ptm_read_header tokens = .error (.unknownFormat "PTM_FORMAT_RGB")) ∧
    (PtmError.unknownFormat "PTM_FORMAT_RGB" ≠ PtmError.wrongVersion) ∧
    (∀ (tokens : List String) (fmt : PTMFormat), ptm_read_header tokens = .ok fmt →
      fmt = .PTM_FORMAT_LRGB ∨ fmt = .PTM_FORMAT_JPEG_LRGB) := by
  refine ⟨?_, ?_, by decide, ?_⟩
  · intro tokens hv
    simp only [ptm_read_header]
    rw [if_pos hv]
  · intro tokens hv hf
    simp only [ptm_read_header]
    rw [if_neg (by simpa using hv), hf]
    rfl
  · intro tokens fmt h
    simp only [ptm_read_header] at h
    split at h
    · exact absurd h (by simp)
    · split at h
      · left; exact (Except.ok.inj h).symm
      · split at h
        · right; exact (Except.ok.inj h).symm
        · exact absurd h (by simp)

/-- Claim C6, witness: concrete rejected and accepted token streams. -/
theorem C6_witness :
    (["PTM_1.1"].getD 0 "" ≠ "PTM_1.2" ∧
      ptm_read_header ["PTM_1.1"] = .error .wrongVersion) ∧
    (ptm_read_header ["PTM_1.2", "PTM_FORMAT_RGB"] =
      .error (.unknownFormat "PTM_FORMAT_RGB")) :=
  ⟨⟨by decide, C6_header_validation.1 ["PTM_1.1"] (by decide)⟩,
   C6_header_validation.2.1 ["PTM_1.2", "PTM_FORMAT_RGB"] (by decide) (by decide)⟩

/-! Claim C7.  Uncompressed LRGB copies the payload verbatim. -/

/-- Claim C7: for an uncompressed LRGB file whose remaining payload is
exactly w * h * 9 bytes, ptm_read copies the payload into the coefficient
buffer verbatim, whatever the compression metadata, decoded planes and side
information are (the decode and reconstruction stages are bypassed). -/
theorem C7_uncompressed_verbatim (w h : Nat) (payload : List Nat)
    (hlen : payload.length = w * h * 9)
    (ci : CompressionInfo) (planes : List Plane) (sideInfo : List (List Nat)) :
    ptm_read_body .PTM_FORMAT_LRGB w h payload ci planes sideInfo = .ok payload := by
  simp only [ptm_read_body, readCoefficientsLRGB, reduceIte]
  have hepp : get_epp .PTM_FORMAT_LRGB = 9 := by decide
  rw [hepp, List.take_of_length_le (le_of_eq hlen), hlen]
  simp

/-- Claim C7, witness: a concrete 1 by 1 uncompressed LRGB payload of 9
bytes is returned unchanged. -/
theorem C7_witness :
    ([1, 2, 3, 4, 5, 6, 7, 8, 9].length = 1 * 1 * 9) ∧
    ptm_read_body .PTM_FORMAT_LRGB 1 1 [1, 2, 3, 4, 5, 6, 7, 8, 9]
      ⟨0, [], [], [], [], [], []⟩ [] [] = .ok [1, 2, 3, 4, 5, 6, 7, 8, 9] :=
  ⟨by decide,
   C7_uncompressed_verbatim 1 1 [1, 2, 3, 4, 5, 6, 7, 8, 9] (by decide)
     ⟨0, [], [], [], [], [], []⟩ [] []⟩

/-! Claim C8.  A plane with the -1 reference sentinel and empty side
information is never written during reconstruction. -/

lemma reconPlane_preserves (w h : Nat) (ci : CompressionInfo)
    (sideInfo : List (List Nat)) (planes : List Plane) (i i0 : Nat)
    (href : ci.referencePlanes.getD i0 0 = -1)
    (hside : sideInfo.getD i0 [] = []) :
    (reconPlane w h ci sideInfo planes i).getD i0 [] = planes.getD i0 [] := by
  by_cases hii : i = i0
  · subst hii
    simp only [reconPlane, href, hside]
    rw [if_neg (by simp), if_neg (by simp)]
  · simp only [reconPlane]
    have hns : ∀ (ps : List Plane) (pl : Plane), (ps.set i pl).getD i0 [] = ps.getD i0 [] :=
      fun ps pl => getD_set_ne ps i i0 pl [] hii
    split
    · split
      · rw [hns, hns]
      · rw [hns]
    · split
      · rw [hns]
      · rfl

/-- Claim C8: for every compressed plane whose reference index is the -1
sentinel and whose side information payload is empty, the full second pass
leaves that plane unchanged from its decoded state. -/
theorem C8_no_prediction_plane_unchanged (w h epp : Nat) (ci : CompressionInfo)
    (sideInfo : List (List Nat)) (planes : List Plane) (i0 : Nat)
    (href : ci.referencePlanes.getD i0 0 = -1)
    (hside : sideInfo.getD i0 [] = []) :
    (reconstruct w h epp ci sideInfo planes).getD i0 [] = planes.getD i0 [] := by
  unfold reconstruct
  generalize List.range epp = ns
  induction ns generalizing planes with
  | nil => rfl
  | cons n ns ih =>
      rw [List.foldl_cons]
      rw [ih (reconStep w h ci sideInfo (buildOrder epp ci.order) planes n)]
      exact reconPlane_preserves w h ci sideInfo planes _ i0 href hside

/-- Claim C8, witness: a 2 plane instance where plane 0 has reference -1 and
no side information; its decoded samples survive reconstruction unchanged. -/
theorem C8_witness :
    ((⟨0, [.NOTHING, .NOTHING], [], [0, 1], [-1, 0], [], []⟩ :
        CompressionInfo).referencePlanes.getD 0 0 = -1 ∧
      ([[], []] : List (List Nat)).getD 0 [] = []) ∧
    (reconstruct 2 1 2 ⟨0, [.NOTHING, .NOTHING], [], [0, 1], [-1, 0], [], []⟩
        [[], []] [[7, 8], [9, 11]]).getD 0 [] = [7, 8] :=
  ⟨⟨by decide, by decide⟩,
   C8_no_prediction_plane_unchanged 2 1 2
     ⟨0, [.NOTHING, .NOTHING], [], [0, 1], [-1, 0], [], []⟩
     [[], []] [[7, 8], [9, 11]] 0 (by decide) (by decide)⟩

/-! Claim C9.  A logical position missing from the order array resolves to
storage index 0 through the value initialising std::map lookup. -/

lemma orderInsert_keys (kv : Nat × Nat) (m : List (Nat × Nat)) (k pv : Nat)
    (hm : kv ∈ orderInsert m k pv) :
    kv.1 = k ∨ ∃ kv2 ∈ m, kv2.1 = kv.1 := by
  unfold orderInsert at hm
  split at hm
  · obtain ⟨kv2, hkv2, hmap⟩ := List.mem_map.mp hm
    by_cases hk : kv2.1 = k
    · rw [if_pos hk] at hmap
      left; rw [← hmap]
    · rw [if_neg hk] at hmap
      right; exact ⟨kv2, hkv2, by rw [hmap]⟩
  · rcases List.mem_append.mp hm with hin | hone
    · right; exact ⟨kv, hin, rfl⟩
    · left
      have : kv = (k, pv) := by simpa using hone
      rw [this]

lemma foldl_orderInsert_keys (key : Nat → Nat) (ps : List Nat) :
    ∀ (m : List (Nat × Nat)) (kv : Nat × Nat),
      kv ∈ ps.foldl (fun m p => orderInsert m (key p) p) m →
      (∃ kv2 ∈ m, kv2.1 = kv.1) ∨ ∃ p ∈ ps, key p = kv.1 := by
  induction ps with
  | nil => intro m kv hm; exact Or.inl ⟨kv, hm, rfl⟩
  | cons p ps ih =>
      intro m kv hm
      rw [List.foldl_cons] at hm
      rcases ih (orderInsert m (key p) p) kv hm with ⟨kv2, hkv2, hk⟩ | ⟨p2, hp2, hk⟩
      · rcases orderInsert_keys kv2 m (key p) p hkv2 with hkp | ⟨kv3, hkv3, hk3⟩
        · exact Or.inr ⟨p, List.mem_cons_self p ps, by rw [hkp] at hk; exact hk⟩
        · exact Or.inl ⟨kv3, hkv3, by rw [hk3, hk]⟩
      · exact Or.inr ⟨p2, List.mem_cons_of_mem p hp2, hk⟩

lemma buildOrder_keys (epp : Nat) (ord : List Int) (kv : Nat × Nat)
    (hm : kv ∈ buildOrder epp ord) :
    ∃ p < epp, size_tOfInt (ord.getD p 0) = kv.1 := by
  rcases foldl_orderInsert_keys (fun p => size_tOfInt (ord.getD p 0))
      (List.range epp) [] kv hm with ⟨kv2, hkv2, _⟩ | ⟨p, hp, hk⟩
  · exact absurd hkv2 (List.not_mem_nil kv2)
  · exact ⟨p, List.mem_range.mp hp, hk⟩

/-- Claim C9: when no storage plane has order value n, reconstruction does
not fail: the order lookup for n yields storage index 0 (the value
initialised default of the std::map), and the second pass iteration at
logical position n processes the plane at storage index 0. -/
theorem C9_missing_order_defaults_to_zero (w h epp n : Nat) (ci : CompressionInfo)
    (sideInfo : List (List Nat)) (planes : List Plane)
    (hmiss : ∀ p < epp, size_tOfInt (ci.order.getD p 0) ≠ n) :
    orderLookup (buildOrder epp ci.order) n = 0 ∧
    reconStep w h ci sideInfo (buildOrder epp ci.order) planes n =
      reconPlane w h ci sideInfo planes 0 := by
  have hfind : (buildOrder epp ci.order).find? (fun kv => kv.1 = n) = none := by
    rw [List.find?_eq_none]
    intro kv hkv
    obtain ⟨p, hp, hkey⟩ := buildOrder_keys epp ci.order kv hkv
    simpa using hkey ▸ hmiss p hp
  have hlook : orderLookup (buildOrder epp ci.order) n = 0 := by
    unfold orderLookup
    rw [hfind]
  exact ⟨hlook, by unfold reconStep; rw [hlook]⟩

/-- Claim C9, witness: order values [5, 7] never contain 0, so logical
position 0 re-processes storage plane 0. -/
theorem C9_witness :
    (∀ p < 2, size_tOfInt (((⟨0, [.NOTHING, .NOTHING], [], [5, 7], [-1, -1], [], []⟩ :
        CompressionInfo).order).getD p 0) ≠ 0) ∧
    orderLookup (buildOrder 2 [5, 7]) 0 = 0 :=
  ⟨by decide,
   (C9_missing_order_defaults_to_zero 1 1 2 0
     ⟨0, [.NOTHING, .NOTHING], [], [5, 7], [-1, -1], [], []⟩ [] [] (by decide)).1⟩

/-! Claim C4.  Layout of the assembled coefficient buffer for compressed
LRGB. -/

lemma pixel_index_lt (w h x y : Nat) (hx : x < w) (hy : y < h) : x + y * w < w * h := by
  obtain ⟨h2, rfl⟩ : ∃ h2, h = h2 + 1 := ⟨h - 1, by omega⟩
  have h1 : y * w ≤ h2 * w := Nat.mul_le_mul_right w (by omega)
  have h2m : w * (h2 + 1) = h2 * w + w := by ring
  omega

lemma assemble_coeff (w h : Nat) (planes : List Plane) (index p : Nat)
    (hidx : index < w * h) (hp : p < 6) :
    (assemble w h planes).getD (index * 6 + p) 0 =
      (planes.getD p []).getD (w * h - index - 1) 0 := by
  simp only [assemble]
  have hk : index * 6 + p < w * h * 6 := by omega
  rw [List.getD_append _ _ _ _ (by simpa using hk), range_map_getD _ _ _ hk]
  have h1 : (index * 6 + p) % 6 = p := by omega
  have h2 : (index * 6 + p) / 6 = index := by omega
  rw [h1, h2]

lemma assemble_rgb (w h : Nat) (planes : List Plane) (index p : Nat)
    (hidx : index < w * h) (hp : p < 3) :
    (assemble w h planes).getD (w * h * 6 + index * 3 + p) 0 =
      (planes.getD (6 + p) []).getD (w * h - index - 1) 0 := by
  simp only [assemble]
  have hlen : ((List.range (w * h * 6)).map
      (fun k => (planes.getD (k % 6) []).getD (w * h - k / 6 - 1) 0)).length =
      w * h * 6 := by simp
  rw [List.getD_append_right _ _ _ _ (by rw [hlen]; omega), hlen]
  have h0 : w * h * 6 + index * 3 + p - w * h * 6 = index * 3 + p := by omega
  rw [h0]
  have hk : index * 3 + p < w * h * 3 := by omega
  rw [range_map_getD _ _ _ hk]
  have h1 : (index * 3 + p) % 3 = p := by omega
  have h2 : (index * 3 + p) / 3 = index := by omega
  rw [h1, h2]

/-- Claim C4: the compressed LRGB assembler sources output pixel (x, y) from
the reversed raster position numPixels - (x + y * w) - 1 of the
reconstructed planes, writing storage planes 0..5 to coefficient bytes
index * 6 + p and storage planes 6..8 to bytes numPixels * 6 + index * 3 + p
(a 6 wide coefficient block followed by a separate 3 wide RGB block). -/
theorem C4_assembly_layout (w h : Nat) (ci : CompressionInfo) (planes : List Plane)
    (sideInfo : List (List Nat)) (x y p : Nat) (hx : x < w) (hy : y < h) :
    (p < 6 → (ptm_read_jpeg w h ci planes sideInfo).getD ((x + y * w) * 6 + p) 0 =
      ((reconstruct w h 9 ci sideInfo planes).getD p []).getD
        (w * h - (x + y * w) - 1) 0) ∧
    (p < 3 → (ptm_read_jpeg w h ci planes sideInfo).getD
        (w * h * 6 + (x + y * w) * 3 + p) 0 =
      ((reconstruct w h 9 ci sideInfo planes).getD (6 + p) []).getD
        (w * h - (x + y * w) - 1) 0) := by
  have hidx : x + y * w < w * h := pixel_index_lt w h x y hx hy
  have hepp : get_epp .PTM_FORMAT_JPEG_LRGB = 9 := by decide
  constructor
  · intro hp
    simp only [ptm_read_jpeg, hepp]
    exact assemble_coeff w h _ (x + y * w) p hidx hp
  · intro hp
    simp only [ptm_read_jpeg, hepp]
    exact assemble_rgb w h _ (x + y * w) p hidx hp

/-- Claim C4, witness: a 2 by 1 image with constant planes; output pixel
(0, 0) takes its bytes from reversed raster position 1. -/
theorem C4_witness :
    ((0 : Nat) < 2 ∧ (0 : Nat) < 1 ∧ (0 : Nat) < 6) ∧
    (ptm_read_jpeg 2 1 ⟨0, List.replicate 9 .NOTHING, [], [0, 1, 2, 3, 4, 5, 6, 7, 8],
        List.replicate 9 (-1), [], []⟩
      ((List.range 9).map (fun p => [10 * p, 10 * p + 1]))
      (List.replicate 9 [])).getD ((0 + 0 * 2) * 6 + 0) 0 =
      ((reconstruct 2 1 9 ⟨0, List.replicate 9 .NOTHING, [], [0, 1, 2, 3, 4, 5, 6, 7, 8],
          List.replicate 9 (-1), [], []⟩ (List.replicate 9 [])
          ((List.range 9).map (fun p => [10 * p, 10 * p + 1]))).getD 0 []).getD
        (2 * 1 - (0 + 0 * 2) - 1) 0 :=
  ⟨by decide,
   (C4_assembly_layout 2 1 ⟨0, List.replicate 9 .NOTHING, [], [0, 1, 2, 3, 4, 5, 6, 7, 8],
       List.replicate 9 (-1), [], []⟩
     ((List.range 9).map (fun p => [10 * p, 10 * p + 1]))
     (List.replicate 9 []) 0 0 0 (by decide) (by decide)).1 (by decide)⟩

/-! Claim C5.  The export stage ptm_dump. -/

lemma pixel_decompose (w a x : Nat) (hx : x < w) :
    (a * w + x) % w = x ∧ (a * w + x) / w = a := by
  have hw : 0 < w := by omega
  constructor
  · rw [Nat.add_comm, Nat.add_mul_mod_self_right, Nat.mod_eq_of_lt hx]
  · rw [Nat.add_comm, Nat.add_mul_div_right _ _ hw, Nat.div_eq_of_lt hx]
    omega

/-- Claim C5: export produces three w * h * 3 images; for every pixel (x, y)
and channel c, coeffH is sourced from coefficient block offset
pixel * 6 + c, coeffL from pixel * 6 + c + 3 and rgb from RGB block offset
pixel * 3 + c, with the destination flipped vertically for uncompressed LRGB
and horizontally for compressed JPEG LRGB; every other format fails with the
unsupported dump error. -/
theorem C5_export (w h : Nat) (coefficients : List Nat) (x y c : Nat)
    (hx : x < w) (hy : y < h) (hc : c < 3) :
    (∃ cH cL rgb, ptm_dump .PTM_FORMAT_LRGB w h coefficients = .ok (cH, cL, rgb) ∧
      cH.length = w * h * 3 ∧ cL.length = w * h * 3 ∧ rgb.length = w * h * 3 ∧
      cH.getD (((h - 1 - y) * w + x) * 3 + c) 0 =
        coefficients.getD ((y * w + x) * 6 + c) 0 ∧
      cL.getD (((h - 1 - y) * w + x) * 3 + c) 0 =
        coefficients.getD ((y * w + x) * 6 + c + 3) 0 ∧
      rgb.getD (((h - 1 - y) * w + x) * 3 + c) 0 =
        coefficients.getD (w * h * 6 + (y * w + x) * 3 + c) 0) ∧
    (∃ cH cL rgb, ptm_dump .PTM_FORMAT_JPEG_LRGB w h coefficients = .ok (cH, cL, rgb) ∧
      cH.getD ((y * w + (w - 1 - x)) * 3 + c) 0 =
        coefficients.getD ((y * w + x) * 6 + c) 0 ∧
      cL.getD ((y * w + (w - 1 - x)) * 3 + c) 0 =
        coefficients.getD ((y * w + x) * 6 + c + 3) 0 ∧
      rgb.getD ((y * w + (w - 1 - x)) * 3 + c) 0 =
        coefficients.getD (w * h * 6 + (y * w + x) * 3 + c) 0) ∧
    (∀ fmt : PTMFormat, fmt ≠ .PTM_FORMAT_LRGB → fmt ≠ .PTM_FORMAT_JPEG_LRGB →
      ptm_dump fmt w h coefficients = .error .cantDumpFormat) := by
  refine ⟨?_, ?_, ?_⟩
  · simp only [ptm_dump]
    rw [if_neg (by simp)]
    refine ⟨_, _, _, rfl, by simp, by simp, by simp, ?_, ?_, ?_⟩ <;>
    · have hd : (h - 1 - y) * w + x < w * h := by
        have := pixel_index_lt w h x (h - 1 - y) hx (by omega)
        omega
      have hk : ((h - 1 - y) * w + x) * 3 + c < w * h * 3 := by omega
      rw [range_map_getD _ _ _ hk]
      have e1 : (((h - 1 - y) * w + x) * 3 + c) / 3 = (h - 1 - y) * w + x := by omega
      have e2 : (((h - 1 - y) * w + x) * 3 + c) % 3 = c := by omega
      rw [e1, e2, (pixel_decompose w (h - 1 - y) x hx).1,
        (pixel_decompose w (h - 1 - y) x hx).2]
      simp only [dumpSrcPixel, if_pos]
      have e5 : h - 1 - (h - 1 - y) = y := by omega
      rw [e5]
  · simp only [ptm_dump]
    rw [if_neg (by simp)]
    refine ⟨_, _, _, rfl, ?_, ?_, ?_⟩ <;>
    · have hd : y * w + (w - 1 - x) < w * h := by
        have := pixel_index_lt w h (w - 1 - x) y (by omega) hy
        omega
      have hk : (y * w + (w - 1 - x)) * 3 + c < w * h * 3 := by omega
      rw [range_map_getD _ _ _ hk]
      have e1 : ((y * w + (w - 1 - x)) * 3 + c) / 3 = y * w + (w - 1 - x) := by omega
      have e2 : ((y * w + (w - 1 - x)) * 3 + c) % 3 = c := by omega
      rw [e1, e2, (pixel_decompose w y (w - 1 - x) (by omega)).1,
        (pixel_decompose w y (w - 1 - x) (by omega)).2]
      simp only [dumpSrcPixel]
      rw [if_neg (by decide)]
      have e5 : w - 1 - (w - 1 - x) = x := by omega
      rw [e5]
  · intro fmt h1 h2
    simp only [ptm_dump]
    rw [if_pos ⟨h1, h2⟩]

/-- Claim C5, witness: a 1 by 2 uncompressed LRGB coefficient buffer of 18
bytes; output pixel (0, 0) of each image is read from destination row 1. -/
theorem C5_witness :
    ((0 : Nat) < 1 ∧ (0 : Nat) < 2 ∧ (0 : Nat) < 3) ∧
    (∃ cH cL rgb, ptm_dump .PTM_FORMAT_LRGB 1 2 (List.range 18) = .ok (cH, cL, rgb) ∧
      cH.length = 1 * 2 * 3 ∧ cL.length = 1 * 2 * 3 ∧ rgb.length = 1 * 2 * 3 ∧
      cH.getD (((2 - 1 - 0) * 1 + 0) * 3 + 0) 0 =
        (List.range 18).getD ((0 * 1 + 0) * 6 + 0) 0 ∧
      cL.getD (((2 - 1 - 0) * 1 + 0) * 3 + 0) 0 =
        (List.range 18).getD ((0 * 1 + 0) * 6 + 0 + 3) 0 ∧
      rgb.getD (((2 - 1 - 0) * 1 + 0) * 3 + 0) 0 =
        (List.range 18).getD (1 * 2 * 6 + (0 * 1 + 0) * 3 + 0) 0) :=
  ⟨by decide, (C5_export 1 2 (List.range 18) 0 0 0 (by decide) (by decide) (by decide)).1⟩

/-! Claims C3 and C10.  The side information patch loop. -/

lemma parseSideInfo_mod5_aux (fuel : Nat) :
    ∀ payload : List Nat, payload.length ≤ fuel → payload.length % 5 = 0 →
      ∃ recs, parseSideInfo payload = some recs ∧
        recs.length = payload.length / 5 := by
  induction fuel with
  | zero =>
      intro payload hle _
      have hnil : payload = [] := List.eq_nil_of_length_eq_zero (by omega)
      subst hnil
      exact ⟨[], rfl, rfl⟩
  | succ f ih =>
      intro payload hle h5
      match payload with
      | [] => exact ⟨[], rfl, rfl⟩
      | [a] => simp at h5
      | [a, b] => simp at h5
      | [a, b, c] => simp at h5
      | [a, b, c, d] => simp at h5
      | a :: b :: c :: d :: e :: rest =>
          simp only [List.length_cons] at h5 hle
          obtain ⟨recs, hp, hl⟩ := ih rest (by omega) (by omega)
          refine ⟨⟨a, b, c, d, e⟩ :: recs, ?_, ?_⟩
          · simp [parseSideInfo, hp]
          · simp only [List.length_cons, hl]
            omega

lemma parseSideInfo_mod5 (payload : List Nat) (h5 : payload.length % 5 = 0) :
    ∃ recs, parseSideInfo payload = some recs ∧
      recs.length = payload.length / 5 :=
  parseSideInfo_mod5_aux payload.length payload le_rfl h5

lemma applySideInfo_eq_foldl_aux (w h fuel : Nat) :
    ∀ (payload : List Nat) (recs : List SideRec) (plane : Plane),
      payload.length ≤ fuel → parseSideInfo payload = some recs →
      applySideInfo w h plane payload = recs.foldl (patchOne w h) plane := by
  induction fuel with
  | zero =>
      intro payload recs plane hle hp
      have hnil : payload = [] := List.eq_nil_of_length_eq_zero (by omega)
      subst hnil
      simp only [parseSideInfo, Option.some.injEq] at hp
      subst hp
      rfl
  | succ f ih =>
      intro payload recs plane hle hp
      match payload with
      | [] =>
          simp only [parseSideInfo, Option.some.injEq] at hp
          subst hp
          rfl
      | [a] => simp [parseSideInfo] at hp
      | [a, b] => simp [parseSideInfo] at hp
      | [a, b, c] => simp [parseSideInfo] at hp
      | [a, b, c, d] => simp [parseSideInfo] at hp
      | a :: b :: c :: d :: e :: rest =>
          simp only [parseSideInfo, Option.map_eq_some'] at hp
          obtain ⟨rs, hrs, hrecs⟩ := hp
          subst hrecs
          simp only [List.length_cons] at hle
          show applySideInfo w h (patchOne w h plane ⟨a, b, c, d, e⟩) rest = _
          rw [List.foldl_cons]
          exact ih rest rs (patchOne w h plane ⟨a, b, c, d, e⟩) (by omega) hrs

lemma applySideInfo_eq_foldl (w h : Nat) (payload : List Nat) (recs : List SideRec)
    (hp : parseSideInfo payload = some recs) (plane : Plane) :
    applySideInfo w h plane payload = recs.foldl (patchOne w h) plane :=
  applySideInfo_eq_foldl_aux w h payload.length payload recs plane le_rfl hp

lemma targetIndex_bounds (w h : Nat) (r : SideRec)
    (h0 : 0 ≤ recIndex r) (hlt : recIndex r < (w : Int) * h) :
    0 ≤ targetIndex w h r ∧ targetIndex w h r < (w : Int) * h := by
  have hwnn : (0 : Int) ≤ (w : Int) := Int.natCast_nonneg w
  have hhnn : (0 : Int) ≤ (h : Int) := Int.natCast_nonneg h
  have hw : 0 < (w : Int) := by
    rcases lt_or_eq_of_le hwnn with hlt2 | heq
    · exact hlt2
    · exfalso; rw [← heq, zero_mul] at hlt; omega
  have hh : 0 < (h : Int) := by
    rcases lt_or_eq_of_le hhnn with hlt2 | heq
    · exact hlt2
    · exfalso; rw [← heq, mul_zero] at hlt; omega
  have hdiv : Int.tdiv (recIndex r) (w : Int) = recIndex r / (w : Int) :=
    Int.tdiv_eq_ediv h0 hwnn
  have hmod : Int.tmod (recIndex r) (w : Int) = recIndex r % (w : Int) :=
    Int.tmod_eq_emod h0 hwnn
  have hrow0 : 0 ≤ recIndex r / (w : Int) := Int.ediv_nonneg h0 hwnn
  have hrowlt : recIndex r / (w : Int) < (h : Int) := by
    rw [Int.ediv_lt_iff_lt_mul hw]
    calc recIndex r < (w : Int) * h := hlt
      _ = (h : Int) * w := by ring
  have hcol0 : 0 ≤ recIndex r % (w : Int) := Int.emod_nonneg (recIndex r) (by omega)
  have hcollt : recIndex r % (w : Int) < (w : Int) := Int.emod_lt_of_pos (recIndex r) hw
  have htgt : targetIndex w h r =
      ((h : Int) - recIndex r / (w : Int) - 1) * (w : Int) + recIndex r % (w : Int) := by
    simp only [targetIndex]
    rw [hdiv, hmod]
  rw [htgt]
  constructor
  · have hge : (0 : Int) ≤ ((h : Int) - recIndex r / (w : Int) - 1) * (w : Int) :=
      mul_nonneg (by omega) (by omega)
    omega
  · have hle : ((h : Int) - recIndex r / (w : Int) - 1) * (w : Int) ≤
        ((h : Int) - 1) * (w : Int) :=
      mul_le_mul_of_nonneg_right (by omega) (by omega)
    have hexp : ((h : Int) - 1) * (w : Int) = (h : Int) * w - w := by ring
    have hcomm : (w : Int) * (h : Int) = (h : Int) * (w : Int) := by ring
    omega

/-- The value the side information assigns to pixel y: the replacement byte
of the last record whose remapped target is y, if any. -/
def lastPatch (w h : Nat) (recs : List SideRec) (y : Nat) : Option Nat :=
  (recs.reverse.find? (fun r => targetIndex w h r = (y : Int))).map SideRec.v

lemma foldl_patch_getD (w h : Nat) (recs : List SideRec) :
    ∀ plane : Plane, plane.length = w * h →
      (∀ r ∈ recs, 0 ≤ recIndex r ∧ recIndex r < (w : Int) * h) →
      ∀ y : Nat, y < w * h →
      (recs.foldl (patchOne w h) plane).getD y 0 =
        (lastPatch w h recs y).getD (plane.getD y 0) := by
  induction recs with
  | nil => intro plane hlen hb y hy; rfl
  | cons r rs ih =>
      intro plane hlen hb y hy
      rw [List.foldl_cons]
      have hbr := hb r (List.mem_cons_self r rs)
      have hbounds := targetIndex_bounds w h r hbr.1 hbr.2
      have hlen2 : (patchOne w h plane r).length = w * h := by
        simp only [patchOne]
        split
        · rw [List.length_set]; exact hlen
        · exact hlen
      rw [ih (patchOne w h plane r) hlen2
        (fun r2 hr2 => hb r2 (List.mem_cons_of_mem r hr2)) y hy]
      simp only [lastPatch, List.reverse_cons, List.find?_append]
      cases hf : rs.reverse.find? (fun r2 => targetIndex w h r2 = (y : Int)) with
      | some r2 => rfl
      | none =>
          simp only [Option.none_or]
          by_cases hty : targetIndex w h r = (y : Int)
          · have hfr : List.find? (fun r2 => targetIndex w h r2 = (y : Int)) [r] =
                some r := by simp [List.find?, hty]
            rw [hfr]
            simp only [Option.map_some', Option.map_none', Option.getD_some,
              Option.getD_none]
            simp only [patchOne]
            rw [if_pos hbounds.1]
            have htn : (targetIndex w h r).toNat = y := by rw [hty]; exact Int.toNat_natCast y
            rw [htn]
            exact getD_set_self plane y r.v 0 (by omega)
          · have hfr : List.find? (fun r2 => targetIndex w h r2 = (y : Int)) [r] =
        none := by simp [List.find?, hty]
            rw [hfr]
            simp only [Option.map_some', Option.map_none', Option.getD_some,
              Option.getD_none]
            simp only [patchOne]
            rw [if_pos hbounds.1]
            have htn : (targetIndex w h r).toNat ≠ y := by
              intro hcontra
              apply hty
              rw [← hcontra, Int.toNat_of_nonneg hbounds.1]
            exact getD_set_ne plane _ y r.v 0 htn

/-- Claim C3: after prediction, a nonempty side information payload made of
consecutive 5 byte records (4 big endian index bytes, then a replacement
byte) is applied record by record: each record unconditionally overwrites
the remapped pixel (h - 1 - index / w) * w + index % w of the plane, and
every pixel that no record targets keeps its pre patch value — so pixel y
ends at the replacement byte of the last record targeting it, and at its
previous value when there is none. -/
theorem C3_side_info_patch (w h : Nat) (plane : Plane) (payload : List Nat)
    (recs : List SideRec) (hp : parseSideInfo payload = some recs)
    (hb : ∀ r ∈ recs, 0 ≤ recIndex r ∧ recIndex r < (w : Int) * h)
    (hlen : plane.length = w * h) (y : Nat) (hy : y < w * h) :
    (applySideInfo w h plane payload).getD y 0 =
      (lastPatch w h recs y).getD (plane.getD y 0) := by
  rw [applySideInfo_eq_foldl w h payload recs hp plane]
  exact foldl_patch_getD w h recs plane hlen hb y hy

/-- Claim C3, witness: the spec test case — a record for pixel index 19
(row 2, col 3 at width 8) with value 77 in an 8 by 4 plane of constant 5;
the remapped pixel 11 ends at 77, matching the last patch value. -/
theorem C3_witness :
    (parseSideInfo [0, 0, 0, 19, 77] = some [⟨0, 0, 0, 19, 77⟩] ∧
      (List.replicate 32 5).length = 8 * 4 ∧ (11 : Nat) < 8 * 4) ∧
    (applySideInfo 8 4 (List.replicate 32 5) [0, 0, 0, 19, 77]).getD 11 0 =
      (lastPatch 8 4 [⟨0, 0, 0, 19, 77⟩] 11).getD ((List.replicate 32 5).getD 11 0) :=
  ⟨⟨by decide, by decide, by decide⟩,
   C3_side_info_patch 8 4 (List.replicate 32 5) [0, 0, 0, 19, 77] [⟨0, 0, 0, 19, 77⟩]
     (by decide) (by decide) (by decide) 11 (by decide)⟩

/-- Claim C10: when the side information size is a multiple of 5, the patch
loop processes exactly size / 5 records with every payload read in bounds
(the record decomposition succeeds with no trailing fragment), and when
every decoded big endian pixel index is a valid pixel index below w * h, the
remapped write position of every record is itself below w * h. -/
theorem C10_patch_safety (w h : Nat) (payload : List Nat)
    (h5 : payload.length % 5 = 0) :
    ∃ recs, parseSideInfo payload = some recs ∧
      recs.length = payload.length / 5 ∧
      (∀ plane : Plane, applySideInfo w h plane payload =
        recs.foldl (patchOne w h) plane) ∧
      (∀ r ∈ recs, 0 ≤ recIndex r → recIndex r < (w : Int) * h →
        0 ≤ targetIndex w h r ∧ targetIndex w h r < (w : Int) * h) := by
  obtain ⟨recs, hp, hl⟩ := parseSideInfo_mod5 payload h5
  exact ⟨recs, hp, hl,
    fun plane => applySideInfo_eq_foldl w h payload recs hp plane,
    fun r _ h0 hlt => targetIndex_bounds w h r h0 hlt⟩

/-- Claim C10, witness: a 10 byte payload of two records decomposes into
exactly 2 records. -/
theorem C10_witness :
    (([0, 0, 0, 19, 77, 0, 0, 0, 3, 9] : List Nat).length % 5 = 0) ∧
    (∃ recs, parseSideInfo [0, 0, 0, 19, 77, 0, 0, 0, 3, 9] = some recs ∧
      recs.length = ([0, 0, 0, 19, 77, 0, 0, 0, 3, 9] : List Nat).length / 5 ∧
      (∀ plane : Plane, applySideInfo 8 4 plane [0, 0, 0, 19, 77, 0, 0, 0, 3, 9] =
        recs.foldl (patchOne 8 4) plane) ∧
      (∀ r ∈ recs, 0 ≤ recIndex r → recIndex r < (8 : Int) * 4 →
        0 ≤ targetIndex 8 4 r ∧ targetIndex 8 4 r < (8 : Int) * 4)) :=
  ⟨by decide, C10_patch_safety 8 4 [0, 0, 0, 19, 77, 0, 0, 0, 3, 9] (by decide)⟩

end Ptmconvert
